import Mathlib

/-!
Verification development for parse-vdv-chipcard.py, a reader/decoder for
VDV-KA contactless smart cards.  The Python source is shallowly embedded:

* `parse_internal` models `BerTlv._parse_internal` (recursive BER-TLV
  parser).  The Python function pulls bytes from an iterator and catches
  `StopIteration` to end its loop, so byte exhaustion at any point simply
  returns the list of nodes decoded so far; the embedding mirrors this with
  `Option`-returning byte readers whose `none` results map to an immediate
  `return decoded`.  The Python `while True` loop is realised with a fuel
  argument (`parseGo`); `data.length` fuel is always sufficient because every
  iteration consumes at least one byte, which `parseGo_of_le` makes precise.
* `get_nth_child`, `get_child`, `get_value` model the navigation methods of
  `BerTlv`; `decode`, `decode_internal`, `decode_datetimecompact` model
  `VdvKaDecoder`; `pretty_print_internal` models `BerTlv._pretty_print_internal`
  with the console output reified as a list of lines plus a completion flag
  (`false` means an uncaught exception escaped at that point);
  `read_chained_data` models the chained-read loop against an abstract
  transport, again with explicit fuel since the source loop need not
  terminate; `pretty_print_block` models the record-level dispatcher with its
  TLV-EFS heuristic.

Python exceptions are made explicit: a caught exception is folded into the
result (e.g. `KeyError` in `VdvKaDecoder.decode` gives `none`), while an
uncaught exception becomes an `Except.error` / `false` completion flag.
-/

namespace VdvChipcard

/-- Tag codes from the `Tag` enumeration of the source that the core logic
branches on. -/
def Tag.SCHLUESSELREGISTER_SEPARATE_DATEN : Nat := 0xED

/-- Tag 0x85, `BERECHTIGUNG_PRODUKTSPEZIFISCH`. -/
def Tag.BERECHTIGUNG_PRODUKTSPEZIFISCH : Nat := 0x85

/-- Tag 0xE8, `BERECHTIGUNG`. -/
def Tag.BERECHTIGUNG : Nat := 0xE8

/-- Tag 0xEA, `BERECHTIGUNG_SEPARATE_DATEN`. -/
def Tag.BERECHTIGUNG_SEPARATE_DATEN : Nat := 0xEA

/-- Parsed BER-TLV element.  The source stores `[tag, length, value]` lists
where `value` is either a list of byte ints (leaf) or a list of such triples
(constructed); the two shapes become the two constructors. -/
inductive TlvNode where
  | leaf (tag len : Nat) (value : List Nat) : TlvNode
  | node (tag len : Nat) (children : List TlvNode) : TlvNode
deriving Repr

/-- Read exactly `n` bytes from the stream (the `[next(idata) for k in range(length)]`
comprehension); `none` models the `StopIteration` raised when the stream is
exhausted mid-value. -/
def takeExact : Nat → List Nat → Option (List Nat × List Nat)
  | 0, xs => some ([], xs)
  | _ + 1, [] => none
  | n + 1, x :: xs =>
    match takeExact n xs with
    | none => none
    | some (v, r) => some (x :: v, r)

/-- Long-form length accumulation: `length = (length << 8) | next(idata)`
repeated `n` times; `none` models exhaustion mid-length. -/
def readLongLen : Nat → Nat → List Nat → Option (Nat × List Nat)
  | 0, acc, xs => some (acc, xs)
  | _ + 1, _, [] => none
  | n + 1, acc, x :: xs => readLongLen n ((acc <<< 8) ||| x) xs

/-- Read the length field: one byte; if its 0x80 bit is set the low 7 bits
give the count of following length bytes. -/
def readLen : List Nat → Option (Nat × List Nat)
  | [] => none
  | l :: xs => if l &&& 0x80 != 0 then readLongLen (l &&& 0x7f) 0 xs else some (l, xs)

/-- Fueled body of `BerTlv._parse_internal`.  One fuel unit per loop
iteration; each iteration consumes at least the tag byte, so `data.length`
fuel is always enough (`parseGo_of_le`).  Exhaustion of the byte stream at
any of the three read points ends the loop with the nodes decoded so far,
exactly as the `except StopIteration: return decoded` of the source does. -/
def parseGo (efs : Bool) : Nat → List Nat → List TlvNode
  | 0, _ => []
  | _ + 1, [] => []
  | fuel + 1, t :: rest =>
    match readLen rest with
    | none => []
    | some (len, rest1) =>
      match takeExact len rest1 with
      | none => []
      | some (v, rest2) =>
        if ((t &&& 0x20 != 0) && (t != Tag.SCHLUESSELREGISTER_SEPARATE_DATEN))
            || (efs && (t == Tag.BERECHTIGUNG_PRODUKTSPEZIFISCH)) then
          TlvNode.node t len (parseGo efs fuel v) :: parseGo efs fuel rest2
        else
          TlvNode.leaf t len v :: parseGo efs fuel rest2

/-- Model of `BerTlv._parse_internal(data, tlvefs_hack)`. -/
def parse_internal (efs : Bool) (data : List Nat) : List TlvNode :=
  parseGo efs data.length data

theorem takeExact_eq_some {n : Nat} {xs v r : List Nat}
    (h : takeExact n xs = some (v, r)) : v.length = n ∧ xs.length = n + r.length := by
  induction n generalizing xs v r with
  | zero =>
    simp [takeExact] at h
    simp [h.1, h.2]
  | succ n ih =>
    cases xs with
    | nil => simp [takeExact] at h
    | cons x xs =>
      simp only [takeExact] at h
      cases h2 : takeExact n xs with
      | none => rw [h2] at h; simp at h
      | some p =>
        rw [h2] at h
        obtain ⟨v', r'⟩ := p
        simp at h
        obtain ⟨hv, hr⟩ := h
        obtain ⟨l1, l2⟩ := ih h2
        subst hv hr
        simp [← l1, l2]
        omega

theorem takeExact_full (xs : List Nat) : takeExact xs.length xs = some (xs, []) := by
  induction xs with
  | nil => simp [takeExact]
  | cons x xs ih => simp [takeExact, ih]

theorem takeExact_none_of_lt {n : Nat} {xs : List Nat} (h : xs.length < n) :
    takeExact n xs = none := by
  induction n generalizing xs with
  | zero => omega
  | succ n ih =>
    cases xs with
    | nil => simp [takeExact]
    | cons x xs =>
      simp only [takeExact]
      rw [ih (by simpa using Nat.lt_of_succ_lt_succ h)]

theorem readLongLen_eq_some {n acc len : Nat} {xs r : List Nat}
    (h : readLongLen n acc xs = some (len, r)) : xs.length = n + r.length := by
  induction n generalizing acc xs with
  | zero =>
    simp [readLongLen] at h
    simp [h.2]
  | succ n ih =>
    cases xs with
    | nil => simp [readLongLen] at h
    | cons x xs =>
      simp only [readLongLen] at h
      have := ih h
      simp [this]
      omega

theorem readLen_eq_some {xs r : List Nat} {len : Nat}
    (h : readLen xs = some (len, r)) : r.length < xs.length := by
  cases xs with
  | nil => simp [readLen] at h
  | cons l xs =>
    simp only [readLen] at h
    by_cases hb : (l &&& 0x80 != 0) = true
    · rw [if_pos hb] at h
      have := readLongLen_eq_some h
      simp
      omega
    · rw [if_neg hb] at h
      simp at h
      simp [h.2]

theorem parseGo_succ (efs : Bool) :
    ∀ (fuel : Nat) (data : List Nat), data.length ≤ fuel →
      parseGo efs (fuel + 1) data = parseGo efs fuel data := by
  intro fuel
  induction fuel with
  | zero =>
    intro data h
    have : data = [] := by cases data <;> simp_all
    subst this
    rfl
  | succ fuel ih =>
    intro data h
    cases data with
    | nil => rfl
    | cons t rest =>
      cases h1 : readLen rest with
      | none => simp only [parseGo, h1]
      | some p =>
        obtain ⟨len, rest1⟩ := p
        cases h2 : takeExact len rest1 with
        | none => simp only [parseGo, h1, h2]
        | some q =>
          obtain ⟨v, rest2⟩ := q
          have hr1 := readLen_eq_some h1
          have hv := takeExact_eq_some h2
          simp at h
          simp only [parseGo, h1, h2]
          rw [ih v (by omega), ih rest2 (by omega)]

theorem parseGo_of_le (efs : Bool) :
    ∀ (fuel : Nat) (data : List Nat), data.length ≤ fuel →
      parseGo efs fuel data = parse_internal efs data := by
  intro fuel
  induction fuel with
  | zero =>
    intro data h
    have : data = [] := by cases data <;> simp_all
    subst this
    rfl
  | succ fuel ih =>
    intro data h
    rcases Nat.eq_or_lt_of_le h with h' | h'
    · rw [parse_internal, h']
    · rw [parseGo_succ efs fuel data (by omega), ih data (by omega)]

/-- One-step unfolding of `parse_internal` on a nonempty stream, with the
recursive occurrences expressed through `parse_internal` itself. -/
theorem parse_internal_cons (efs : Bool) (t : Nat) (rest : List Nat) :
    parse_internal efs (t :: rest) =
      match readLen rest with
      | none => []
      | some (len, rest1) =>
        match takeExact len rest1 with
        | none => []
        | some (v, rest2) =>
          if ((t &&& 0x20 != 0) && (t != Tag.SCHLUESSELREGISTER_SEPARATE_DATEN))
              || (efs && (t == Tag.BERECHTIGUNG_PRODUKTSPEZIFISCH)) then
            TlvNode.node t len (parse_internal efs v) :: parse_internal efs rest2
          else
            TlvNode.leaf t len v :: parse_internal efs rest2 := by
  show parseGo efs (rest.length + 1) (t :: rest) = _
  cases h1 : readLen rest with
  | none => simp only [parseGo, h1]
  | some p =>
    obtain ⟨len, rest1⟩ := p
    cases h2 : takeExact len rest1 with
    | none => simp only [parseGo, h1, h2]
    | some q =>
      obtain ⟨v, rest2⟩ := q
      have hr1 := readLen_eq_some h1
      have hv := takeExact_eq_some h2
      simp only [parseGo, h1, h2]
      rw [parseGo_of_le efs rest.length v (by omega),
        parseGo_of_le efs rest.length rest2 (by omega)]

/-- Tag of a parsed element (`tlv[0]` in the source). -/
def tagOf : TlvNode → Nat
  | TlvNode.leaf t _ _ => t
  | TlvNode.node t _ _ => t

/-- Declared length of a parsed element (`tlv[1]` in the source). -/
def lenOf : TlvNode → Nat
  | TlvNode.leaf _ l _ => l
  | TlvNode.node _ l _ => l

/-- Model of `BerTlv._is_nested_tlv(value)`, i.e.
`len(value) > 0 and isinstance(value[0], list)`: a constructed node with a
nonempty child list.  A constructed node whose nested parse produced zero
children is stored as `[tag, length, []]` in the source and is
indistinguishable there from an empty leaf, so it fails this test. -/
def is_nested_tlv : TlvNode → Bool
  | TlvNode.leaf _ _ _ => false
  | TlvNode.node _ _ c => !c.isEmpty

/-- Byte list obtained when the source reads a value that failed the
`_is_nested_tlv` test (`bytes(value)`); for a childless constructed node this
is the empty byte string. -/
def rawValue : TlvNode → List Nat
  | TlvNode.leaf _ _ v => v
  | TlvNode.node _ _ _ => []

/-- Child list of an element that passed the `_is_nested_tlv` test. -/
def childrenOf : TlvNode → List TlvNode
  | TlvNode.leaf _ _ _ => []
  | TlvNode.node _ _ c => c

/-- Loop of `BerTlv.get_nth_child`: `count` increases on every element whose
tag matches, whether or not it is nested; the element is returned only when
`count == no` and it passes the nested test. -/
def getNthChildGo (tag no : Nat) : List TlvNode → Nat → Option (List TlvNode)
  | [], _ => none
  | x :: rest, count =>
    if tagOf x == tag then
      if count == no && is_nested_tlv x then some (childrenOf x)
      else getNthChildGo tag no rest (count + 1)
    else getNthChildGo tag no rest count

/-- Model of `BerTlv.get_nth_child(tag, no)`; `none` models the `return None`
("absent") result. -/
def get_nth_child (nodes : List TlvNode) (tag no : Nat) : Option (List TlvNode) :=
  getNthChildGo tag no nodes 0

/-- Model of `BerTlv.get_child(tag)`. -/
def get_child (nodes : List TlvNode) (tag : Nat) : Option (List TlvNode) :=
  get_nth_child nodes tag 0

/-- Model of `BerTlv.get_value(tag)`: first tag match that fails the nested
test; matches that pass the nested test are skipped. -/
def get_value : List TlvNode → Nat → Option (List Nat)
  | [], _ => none
  | x :: rest, tag =>
    if tagOf x == tag then
      if !is_nested_tlv x then some (rawValue x) else get_value rest tag
    else get_value rest tag

/-- Field type codes of the `VdvKaDecoder._fields` schema strings. -/
inductive FieldType where
  | b1 | b2 | b3 | b4 | hex8 | bcd2 | dtc | hexdate | strToEnd
deriving Repr, DecidableEq

/-- Decoded field value: an integer or a rendered string. -/
inductive FieldVal where
  | num (n : Nat) : FieldVal
  | str (s : String) : FieldVal
deriving Repr, DecidableEq

/-- Lowercase hex digit. -/
def hexChar (n : Nat) : Char :=
  if n < 10 then Char.ofNat (48 + n) else Char.ofNat (87 + n)

/-- Model of the `"%02x" % b` rendering of one byte (two lowercase hex
digits; all bytes handled by the source are < 256). -/
def hex2 (n : Nat) : String :=
  String.mk [hexChar (n / 16 % 16), hexChar (n % 16)]

/-- Model of `"%0wd" % n` for nonnegative `n`: decimal digits left-padded
with zeros to at least width `w`. -/
def padDec (w n : Nat) : String :=
  let s := toString n
  String.mk (List.replicate (w - s.length) '0') ++ s

/-- Model of `VdvKaDecoder._decode_datetimecompact(dt)`. -/
def decode_datetimecompact (dt : Nat) : Nat × Nat × Nat × Nat × Nat × Nat :=
  ((dt >>> (16 + 9)) + 1990, (dt >>> (16 + 5)) &&& 0xF, (dt >>> 16) &&& 0x1F,
    (dt >>> 11) &&& 0x1F, (dt >>> 5) &&& 0x3F, (dt &&& 0x1F) * 2)

/-- Model of the `"%04d-%02d-%02d %02d:%02d:%02d"` rendering applied to the
tuple returned by `decode_datetimecompact`. -/
def formatDateTime : Nat × Nat × Nat × Nat × Nat × Nat → String
  | (y, mo, d, h, mi, s) =>
    padDec 4 y ++ "-" ++ padDec 2 mo ++ "-" ++ padDec 2 d ++ " " ++
      padDec 2 h ++ ":" ++ padDec 2 mi ++ ":" ++ padDec 2 s

/-- Decode one field of the given type from the byte stream, returning the
value and the remaining bytes.  `none` models the `StopIteration` raised by
`next(idata)` when the stream is exhausted mid-field.  The type codes map
1:1 to the branches of `VdvKaDecoder._decode_internal`. -/
def decodeField : FieldType → List Nat → Option (FieldVal × List Nat)
  | FieldType.b1, x :: r => some (FieldVal.num x, r)
  | FieldType.b1, [] => none
  | FieldType.b2, a :: b :: r => some (FieldVal.num ((a <<< 8) + b), r)
  | FieldType.b2, _ => none
  | FieldType.b3, a :: b :: c :: r => some (FieldVal.num ((a <<< 16) + (b <<< 8) + c), r)
  | FieldType.b3, _ => none
  | FieldType.b4, a :: b :: c :: d :: r =>
    some (FieldVal.num ((a <<< 24) + (b <<< 16) + (c <<< 8) + d), r)
  | FieldType.b4, _ => none
  | FieldType.hex8, a :: b :: c :: d :: e :: f :: g :: h :: r =>
    some (FieldVal.str (hex2 a ++ hex2 b ++ hex2 c ++ hex2 d ++
      hex2 e ++ hex2 f ++ hex2 g ++ hex2 h), r)
  | FieldType.hex8, _ => none
  | FieldType.bcd2, a :: b :: r => some (FieldVal.str (hex2 a ++ hex2 b), r)
  | FieldType.bcd2, _ => none
  | FieldType.dtc, a :: b :: c :: d :: r =>
    some (FieldVal.str (formatDateTime (decode_datetimecompact
      ((a <<< 24) + (b <<< 16) + (c <<< 8) + d))), r)
  | FieldType.dtc, _ => none
  | FieldType.hexdate, a :: b :: c :: d :: r =>
    some (FieldVal.str (hex2 a ++ hex2 b ++ "-" ++ hex2 c ++ "-" ++ hex2 d), r)
  | FieldType.hexdate, _ => none
  | FieldType.strToEnd, xs => some (FieldVal.str (String.mk (xs.map Char.ofNat)), [])

/-- Model of `VdvKaDecoder._decode_internal(idata, fdef)`: decode the schema
fields in order from a shared byte cursor; a field with empty name is decoded
but omitted from the result; `Except.error` models an escaping
`StopIteration`. -/
def decode_internal : List (FieldType × String) → List Nat → Except Unit (List (String × FieldVal))
  | [], _ => Except.ok []
  | (ft, name) :: fdef, xs =>
    match decodeField ft xs with
    | none => Except.error ()
    | some (val, xs') =>
      match decode_internal fdef xs' with
      | Except.error e => Except.error e
      | Except.ok result => Except.ok (if name = "" then result else (name, val) :: result)

/-- Model of the `VdvKaDecoder._fields` table, with each schema string
`"T:name|..."` transcribed into its list of (type, name) pairs. -/
def fields : Nat → Option (List (FieldType × String))
  | 0x80 => some [(FieldType.b1, "appStatus"), (FieldType.b1, "appSynchronNummer")]
  | 0x81 => some [(FieldType.b4, "NmAppInstanznummer"), (FieldType.b2, "app.organisationsNummer"),
      (FieldType.b1, "appVersion"), (FieldType.dtc, "appGueltigkeitsbeginn"),
      (FieldType.dtc, "appGueltigkeitsende")]
  | 0x82 => some [(FieldType.b2, "logApplikationSeqNummer")]
  | 0xC7 => some [(FieldType.strToEnd, "Infotext")]
  | 0x91 => some [(FieldType.b1, "Version KPV"), (FieldType.b1, "Version KKVP"),
      (FieldType.b1, "Version KAUTH")]
  | 0x99 => some [(FieldType.b4, "samSequenznummer"), (FieldType.b3, "samNummer")]
  | 0x89 => some [(FieldType.b2, "logApplikationSeqNummer"), (FieldType.b4, "samSequenznummer"),
      (FieldType.b3, "samNummer"), (FieldType.b2, "logTransaktionsOperator_ID"),
      (FieldType.b1, "terminalTyp"), (FieldType.b2, "terminalNummer"),
      (FieldType.b2, "transkation.organisationsNummer"), (FieldType.dtc, "logTransaktionsZeitpunkt"),
      (FieldType.b1, "ortTyp"), (FieldType.b3, "ortNummer"),
      (FieldType.b2, "ort.organisationsNummer"), (FieldType.b1, "logTransaktionsTyp")]
  | 0x9B => some [(FieldType.b4, "appProdLogSAMSeqNummer")]
  | 0x8E => some [(FieldType.b2, "appLogSeqNummer"), (FieldType.b4, "NmAppInstanznummer"),
      (FieldType.b2, "app.organisationsNummer"), (FieldType.b1, "alterStatus"),
      (FieldType.b1, "neuerStatus"), (FieldType.b1, "appSynchronNummer"),
      (FieldType.hex8, "MACKONTROLLE"), (FieldType.b1, "Version KKONTROLLE")]
  | 0x9A => some [(FieldType.b4, "berProdLogSAMSeqNummer")]
  | 0x8D => some [(FieldType.b2, "berLogSeqNummer"), (FieldType.b4, "berechtigungNummer"),
      (FieldType.b2, "ber.organisationsNummer"), (FieldType.b2, "produktNummer"),
      (FieldType.b2, "produkt.organisationsNummer"), (FieldType.b1, "alterStatus"),
      (FieldType.b1, "neuerStatus"), (FieldType.b1, "berSynchronNummer"),
      (FieldType.hex8, "MACKONTROLLE"), (FieldType.b1, "Version KKONTROLLE")]
  | 0x86 => some [(FieldType.b2, ""), (FieldType.b2, "hersteller.organisationsNummer"),
      (FieldType.bcd2, "NM-Spezifikations-version"),
      (FieldType.b4, "Herstellerspezifische Versionsnummer")]
  | 0x83 => some [(FieldType.b4, "berechtigungNummer"), (FieldType.b2, "ber.organisationsNummer"),
      (FieldType.b2, "produktNummer"), (FieldType.b2, "produkt.organisationsNummer"),
      (FieldType.b2, "prodKeyOrganisation_ID"), (FieldType.dtc, "berGueltigkeitsbeginn"),
      (FieldType.dtc, "berGueltigkeitsende")]
  | 0x84 => some [(FieldType.b1, "berStatus"), (FieldType.b1, "berSynchronNummer")]
  | 0xDB => some [(FieldType.b1, "efsFahrgastGeschlecht"), (FieldType.hexdate, "efsFahrgastGeburtsdatum"),
      (FieldType.strToEnd, "efsFahrgastName")]
  | 0xDC => some [(FieldType.b1, "Typ"), (FieldType.b2, "pv.organisationsNummer")]
  | 0xC3 => some [(FieldType.b1, "LogTransaktionsTyp"), (FieldType.b1, "Zeiger")]
  | 0x8B => some [(FieldType.b2, "berLogSeqNummer"), (FieldType.b4, "berechtigungNummer"),
      (FieldType.b2, "ber.organisationsNummer"), (FieldType.b2, "produktNummer"),
      (FieldType.b2, "produkt.organisationsNummer"), (FieldType.b2, "Linie_ID.linienNummer"),
      (FieldType.b1, "VariantenNummer"), (FieldType.b3, "fahrtNummer"),
      (FieldType.b2, "Organisation_ID.organisationsNummer")]
  | _ => none

/-- Model of `VdvKaDecoder.decode(tag, data)`.  A tag without schema raises
`KeyError`, which the source catches and turns into `None` (`Except.ok none`
here); a `StopIteration` from `_decode_internal` is not caught and escapes
(`Except.error`). -/
def decode (tag : Nat) (data : List Nat) : Except Unit (Option (List (String × FieldVal))) :=
  match fields tag with
  | none => Except.ok none
  | some fdef =>
    match decode_internal fdef data with
    | Except.error e => Except.error e
    | Except.ok r => Except.ok (some r)

/-- Nat-keyed transcription of the `Tag` enumeration (used by
`BerTlv._get_tag_name`; a code absent here raises `ValueError`, caught in the
source). -/
def tagName : Nat → Option String
  | 0xE0 => some "APPLIKATIONSVERZEICHNIS"
  | 0xE1 => some "APPLIKATIONSDATEN"
  | 0xE2 => some "VERZ_APPLIKATIONSDATEN"
  | 0x80 => some "APPLIKATIONSDATEN_DYNAMISCH"
  | 0x81 => some "APPLIKATIONSDATEN_STATISCH"
  | 0xEE => some "APPLIKATIONSDATEN_SEPARATE_DATEN"
  | 0x91 => some "SCHLUESSELVERSIONEN"
  | 0x99 => some "AUSGABETRANSAKTIONSKENNUNG"
  | 0xE3 => some "APPLIKATIONSLOGBUCH"
  | 0xE4 => some "VERZ_APPLIKATIONSLOGBUCH"
  | 0x82 => some "APPLIKATIONSLOGBUCH_STATISCH"
  | 0xE5 => some "APPLIKATIONSLOGBUCH_SEPARATE_DATEN"
  | 0xE6 => some "KUNDENDATEN"
  | 0xE7 => some "VERZ_KUNDENDATEN"
  | 0xE8 => some "BERECHTIGUNG"
  | 0xE9 => some "VERZ_BERECHTIGUNG"
  | 0x83 => some "BERECHTIGUNG_STATISCH"
  | 0x84 => some "BERECHTIGUNG_DYNAMISCH"
  | 0xEA => some "BERECHTIGUNG_SEPARATE_DATEN"
  | 0x85 => some "BERECHTIGUNG_PRODUKTSPEZIFISCH"
  | 0xEB => some "SCHLUESSELREGISTER"
  | 0xEC => some "VERZ_SCHLUESSELREGISTER"
  | 0x86 => some "SCHLUESSELREGISTER_STATISCH"
  | 0x87 => some "SCHLUESSELREGISTER_DYNAMISCH"
  | 0xED => some "SCHLUESSELREGISTER_SEPARATE_DATEN"
  | 0x89 => some "ALLGEMEINE_TRANSAKTIONSDATEN"
  | 0xF7 => some "AUSGABETRANSAKTION_APPLIKATION"
  | 0x8E => some "STATUSAENDERUNG_APPLIKATION"
  | 0x9B => some "AUSGABE_APPLIKATION_DATEN"
  | 0xF6 => some "AUSGABETRANSAKTION_BERECHTIGUNG"
  | 0x8A => some "TRANSAKTION_PRODUKTSPEZIFISCHER_TEIL"
  | 0x8D => some "STATUSAENDERUNG_BERECHTIGUNG"
  | 0x9A => some "AUSGABE_BERECHTIGUNG_DATEN"
  | 0xF1 => some "FAHRTTRANSAKTION"
  | 0x8B => some "ALLGEMEINE_FAHRTTRANSAKTIONSDATEN"
  | 0xDA => some "TLV_EFS_GRUNDLEGENDE_DATEN"
  | 0xDB => some "TLV_EFS_FAHRGAST"
  | 0xDC => some "TLV_EFS_LISTE_ORIG_GELTUNGSBEREICH"
  | 0xC0 => some "ZEIGER"
  | 0xC3 => some "LETZTE_TRANSAKTION"
  | 0xC7 => some "INFOTEXT"
  | 0x90 => some "PRIORITAETEN"
  | _ => none

/-- Model of `BerTlv._get_tag_name(tag)`. -/
def get_tag_name (tag : Nat) : String :=
  match tagName tag with
  | some n => hex2 tag ++ " (" ++ n ++ ")"
  | none => hex2 tag ++ " (???)"

/-- Python `str()` of a decoded field value. -/
def strOfVal : FieldVal → String
  | FieldVal.num n => toString n
  | FieldVal.str s => s

/-- Python `"  " * indent`. -/
def indentStr (n : Nat) : String :=
  String.mk (List.replicate (2 * n) ' ')

/-- Console line printed for one leaf (tag line followed by the hex dump of
its bytes, space separated, as `print` renders its arguments). -/
def leafLine (withNames : Bool) (ind t : Nat) (v : List Nat) : String :=
  String.intercalate " "
    ((indentStr ind ++ (if withNames then get_tag_name t else hex2 t) ++ ":") :: v.map hex2)

/-- Lines contributed by one leaf value, and whether processing may continue:
`false` records that `VdvKaDecoder.decode` raised (the `StopIteration` of a
truncated field), which in the source escapes `_pretty_print_internal`
uncaught, so nothing after this leaf is printed. -/
def leafStep (withNames withDetails : Bool) (ind t : Nat) (v : List Nat) : List String × Bool :=
  let line := leafLine withNames ind t v
  if withDetails then
    match decode t v with
    | Except.error _ => ([line], false)
    | Except.ok none => ([line], true)
    | Except.ok (some decoded) =>
      (line :: decoded.map (fun p => indentStr ind ++ "  " ++ p.1 ++ ": " ++ strOfVal p.2), true)
  else ([line], true)

/-- Model of `BerTlv._pretty_print_internal(data, with_names, with_details, indent)`.
The printed console lines are reified as a list; the boolean is `true` when
the walk ran to completion and `false` when an uncaught exception escaped
after the lines collected so far.  A constructed node with an empty child
list fails `_is_nested_tlv` in the source and is printed as a leaf with
empty byte value. -/
def pretty_print_internal (withNames withDetails : Bool) : List TlvNode → Nat → List String × Bool
  | [], _ => ([], true)
  | TlvNode.leaf t _ v :: rest, ind =>
    let r1 := leafStep withNames withDetails ind t v
    if r1.2 then
      let r2 := pretty_print_internal withNames withDetails rest ind
      (r1.1 ++ r2.1, r2.2)
    else (r1.1, false)
  | TlvNode.node t _ c :: rest, ind =>
    if c.isEmpty then
      let r1 := leafStep withNames withDetails ind t []
      if r1.2 then
        let r2 := pretty_print_internal withNames withDetails rest ind
        (r1.1 ++ r2.1, r2.2)
      else (r1.1, false)
    else
      let hd := indentStr ind ++ (if withNames then get_tag_name t else hex2 t) ++ ":"
      let r1 := pretty_print_internal withNames withDetails c (ind + 1)
      if r1.2 then
        let r2 := pretty_print_internal withNames withDetails rest ind
        (hd :: r1.1 ++ r2.1, r2.2)
      else (hd :: r1.1, false)

/-- Model of `BerTlv.pretty_print(with_names, with_details)`. -/
def pretty_print (withNames withDetails : Bool) (nodes : List TlvNode) : List String × Bool :=
  pretty_print_internal withNames withDetails nodes 0

/-- Model of `success(sw1, sw2)`: status word 0x9000. -/
def success (sw1 sw2 : Nat) : Bool :=
  sw1 == 0x90 && sw2 == 0

/-- Kind of request transmitted by `read_chained_data`: a `GET_DATA_NEXT` or
a `GET_DATA_LAST` APDU (the record selector and trailing zero byte are the
same for both and are omitted from the model). -/
inductive Req where
  | next
  | last
deriving Repr, DecidableEq

/-- Loop of `read_chained_data`, against a transport modelled as the
sequence of `(response, sw1, sw2)` replies to the successive `transmit`
calls.  One fuel unit per loop iteration; `none` means the `while True` loop
has not finished within the given fuel.  The accumulated request trace is
returned so that theorems can count the transmitted requests. -/
def readChainedGo (trans : Nat → List Nat × Nat × Nat) :
    Nat → Nat → List Req → List Nat → Option (List Req × List Nat × Nat × Nat)
  | 0, _, _, _ => none
  | fuel + 1, k, reqs, acc =>
    let r := trans k
    let reqs' := reqs ++ [Req.next]
    let acc' := acc ++ r.1
    if !success r.2.1 r.2.2 then some (reqs', acc', r.2.1, r.2.2)
    else if r.1.length < 256 then
      let rl := trans (k + 1)
      some (reqs' ++ [Req.last], acc', rl.2.1, rl.2.2)
    else readChainedGo trans fuel (k + 1) reqs' acc'

/-- Model of `read_chained_data(connection, record)`:
accumulate `GET_DATA_NEXT` responses until a non-success status word (early
`return`) or a short (< 256 byte) response (loop `break` followed by one
`GET_DATA_LAST` whose payload is discarded). -/
def read_chained_data (trans : Nat → List Nat × Nat × Nat) (fuel : Nat) :
    Option (List Req × List Nat × Nat × Nat) :=
  readChainedGo trans fuel 0 [] []

/-- Termination of the chained-read loop for a given transport behaviour:
some fuel suffices for the loop to finish. -/
def readChainedTerminates (trans : Nat → List Nat × Nat × Nat) : Prop :=
  ∃ fuel r, read_chained_data trans fuel = some r

/-- Model of the TLV-EFS guessing expression inside `pretty_print_block`:
`t.get_child(BERECHTIGUNG).get_child(BERECHTIGUNG_SEPARATE_DATEN)
.get_value(BERECHTIGUNG_PRODUKTSPEZIFISCH)[0] & 0xF0 == 0xD0`
wrapped in `try: ... except AttributeError: is_tlv_efs = False`.
A `get_child` returning `None` makes the following method call raise
`AttributeError`, which is caught (`Except.ok false`).  A `get_value`
returning `None` instead makes the `[0]` subscript raise `TypeError`, and an
empty byte value makes it raise `IndexError`; neither is an
`AttributeError`, so both escape uncaught (`Except.error`). -/
def is_tlv_efs_heuristic (t : List TlvNode) : Except Unit Bool :=
  match get_child t Tag.BERECHTIGUNG with
  | none => Except.ok false
  | some t1 =>
    match get_child t1 Tag.BERECHTIGUNG_SEPARATE_DATEN with
    | none => Except.ok false
    | some t2 =>
      match get_value t2 Tag.BERECHTIGUNG_PRODUKTSPEZIFISCH with
      | none => Except.error ()
      | some [] => Except.error ()
      | some (b :: _) => Except.ok ((b &&& 0xF0) == 0xD0)

/-- Model of `pretty_print_block(response, sw1, sw2)`: on success status,
parse, apply the TLV-EFS heuristic (re-parsing with the mode flag when it
says yes) and pretty print; otherwise print the error status word.
`Except.error` models an uncaught exception escaping the function. -/
def pretty_print_block (response : List Nat) (sw1 sw2 : Nat) : Except Unit (List String) :=
  if success sw1 sw2 then
    match is_tlv_efs_heuristic (parse_internal false response) with
    | Except.error e => Except.error e
    | Except.ok isEfs =>
      let t := if isEfs then parse_internal true response else parse_internal false response
      let r := pretty_print true true t
      if r.2 then Except.ok (r.1 ++ [""]) else Except.error ()
  else Except.ok (["Fehler " ++ hex2 sw1 ++ hex2 sw2, ""])

/-- Whether any node at any depth of the tree carries tag 0x85
(`BERECHTIGUNG_PRODUKTSPEZIFISCH`). -/
def hasTag85 : List TlvNode → Bool
  | [] => false
  | TlvNode.leaf t _ _ :: rest => (t == 0x85) || hasTag85 rest
  | TlvNode.node t _ c :: rest => (t == 0x85) || hasTag85 c || hasTag85 rest

/-- Number of bytes of the shortest BER length field encoding `len`:
one byte in short form for `len ≤ 0x7F`, otherwise a prefix byte plus the
minimal big-endian byte representation of `len`. -/
def lenEncSize (len : Nat) : Nat :=
  if len < 0x80 then 1 else 1 + (Nat.log 256 len + 1)

/-- Encoded byte size of one node: tag byte, minimal length field, and the
`len` content bytes its length field declares. -/
def encSize (x : TlvNode) : Nat :=
  1 + lenEncSize (lenOf x) + lenOf x

/-- Total encoded byte length of a sequence of nodes. -/
def sumEncSize (xs : List TlvNode) : Nat :=
  (xs.map encSize).sum

/-- All nodes of a tree, at every depth. -/
def subnodes : List TlvNode → List TlvNode
  | [] => []
  | TlvNode.leaf t l v :: rest => TlvNode.leaf t l v :: subnodes rest
  | TlvNode.node t l c :: rest => TlvNode.node t l c :: (subnodes c ++ subnodes rest)

/-- Per-node length invariant exactly as the specification claims it:
`length` equals the byte length of a raw payload, and equals the total
encoded byte length of the children for a nested payload. -/
def lengthClaimInv : TlvNode → Prop
  | TlvNode.leaf _ l v => l = v.length
  | TlvNode.node _ l c => l = sumEncSize c

/-- Per-node length invariant that the parser actually guarantees: equality
for raw payloads, but only an upper bound for nested payloads (the nested
byte range can end mid-structure, in which case its trailing bytes belong to
no child). -/
def lengthInv : TlvNode → Prop
  | TlvNode.leaf _ l v => l = v.length
  | TlvNode.node _ l c => sumEncSize c ≤ l

theorem land_128_eq_zero {n : Nat} (h : n < 128) : n &&& 128 = 0 := by
  have h2 : n < 2 ^ 7 := by norm_num; omega
  calc n &&& 128 = n &&& 2 ^ 7 := by norm_num
    _ = (n.testBit 7).toNat * 2 ^ 7 := Nat.and_two_pow n 7
    _ = 0 := by rw [Nat.testBit_lt_two_pow h2]; rfl

theorem readLen_short {l : Nat} (h : l < 128) (xs : List Nat) :
    readLen (l :: xs) = some (l, xs) := by
  simp [readLen, land_128_eq_zero h]

/-- C1 counterexample.  The byte stream `83 01 07 E0 05 01` ends inside the
value of the second element (tag 0xE0 declares 5 value bytes but only one
follows).  The claim says this parse must fail with a fatal
`MalformedTlvError` and must not return a partial tree; the source instead
catches the `StopIteration`, drops the incomplete element and returns the
nonempty partial tree of the elements completed so far. -/
theorem parse_mid_value_returns_partial_tree :
    parse_internal false [0x83, 1, 7, 0xE0, 5, 1] = [TlvNode.leaf 0x83 1 [7]] ∧
    parse_internal false [0x83, 1, 7, 0xE0, 5, 1] ≠ [] := by
  refine ⟨rfl, ?_⟩
  rw [show parse_internal false [0x83, 1, 7, 0xE0, 5, 1] = [TlvNode.leaf 0x83 1 [7]] from rfl]
  simp

/-- C1 as amended: exhaustion of the byte stream is never an error.  It is a
clean stop at a tag boundary (after a completed element or on empty input),
and running out of bytes mid-structure (after a tag byte, or inside a short
value) makes the parser silently drop the incomplete element and return the
elements completed so far. -/
theorem parse_exhaustion_is_clean_stop (efs : Bool) (t len : Nat) (v : List Nat)
    (hlen : len < 128) (hv : v.length < len) :
    parse_internal efs [t] = [] ∧
    parse_internal efs (t :: len :: v) = [] ∧
    parse_internal efs (0x83 :: 1 :: 7 :: t :: len :: v) = [TlvNode.leaf 0x83 1 [7]] := by
  have h2 : parse_internal efs (t :: len :: v) = [] := by
    rw [parse_internal_cons]
    simp only [readLen_short hlen, takeExact_none_of_lt hv]
  refine ⟨rfl, h2, ?_⟩
  rw [parse_internal_cons, readLen_short (by omega : (1 : Nat) < 128)]
  simp only [show takeExact 1 (7 :: t :: len :: v) = some ([7], t :: len :: v) from rfl]
  simp [Tag.SCHLUESSELREGISTER_SEPARATE_DATEN, Tag.BERECHTIGUNG_PRODUKTSPEZIFISCH, h2,
    show (131 &&& 32 : Nat) = 0 from rfl]

theorem parse_exhaustion_is_clean_stop_witness :
    5 < 128 ∧ ([1] : List Nat).length < 5 ∧
    (parse_internal false [0xE0] = [] ∧
     parse_internal false [0xE0, 5, 1] = [] ∧
     parse_internal false [0x83, 1, 7, 0xE0, 5, 1] = [TlvNode.leaf 0x83 1 [7]]) :=
  ⟨by decide, by decide,
    parse_exhaustion_is_clean_stop false 0xE0 5 [1] (by decide) (by decide)⟩

/-- C4: a complete single element with a short-form length is classified as
constructed (and its value parsed recursively) exactly when bit 0x20 of the
tag is set and the tag is not 0xED, or the TLV-EFS mode is on and the tag is
0x85; otherwise it is a leaf holding the raw value bytes. -/
theorem parse_constructed_classification (efs : Bool) (t len : Nat) (v : List Nat)
    (hlen : len < 128) (hv : v.length = len) :
    parse_internal efs (t :: len :: v) =
      [if (t &&& 0x20 ≠ 0 ∧ t ≠ 0xED) ∨ (efs = true ∧ t = 0x85) then
        TlvNode.node t len (parse_internal efs v)
      else
        TlvNode.leaf t len v] := by
  have htk : takeExact len v = some (v, []) := by rw [← hv]; exact takeExact_full v
  rw [parse_internal_cons]
  simp only [readLen_short hlen, htk]
  have hcond : (((t &&& 0x20 != 0) && (t != Tag.SCHLUESSELREGISTER_SEPARATE_DATEN))
      || (efs && (t == Tag.BERECHTIGUNG_PRODUKTSPEZIFISCH))) = true ↔
      ((t &&& 0x20 ≠ 0 ∧ t ≠ 0xED) ∨ (efs = true ∧ t = 0x85)) := by
    simp [Tag.SCHLUESSELREGISTER_SEPARATE_DATEN, Tag.BERECHTIGUNG_PRODUKTSPEZIFISCH]
  by_cases hc : (t &&& 0x20 ≠ 0 ∧ t ≠ 0xED) ∨ (efs = true ∧ t = 0x85)
  · simp only [if_pos (hcond.mpr hc), if_pos hc]
    rfl
  · simp only [if_neg (fun hb => hc (hcond.mp hb)), if_neg hc]
    rfl

theorem parse_constructed_classification_witness :
    0 < 128 ∧ ([] : List Nat).length = 0 ∧
    parse_internal true [0x85, 0] =
      [if ((0x85 &&& 0x20 ≠ 0 ∧ (0x85 : Nat) ≠ 0xED) ∨ (true = true ∧ (0x85 : Nat) = 0x85)) then
        TlvNode.node 0x85 0 (parse_internal true [])
      else
        TlvNode.leaf 0x85 0 []] :=
  ⟨by decide, rfl, parse_constructed_classification true 0x85 0 [] (by decide) rfl⟩

/-- C3 counterexample.  A transport that reports a non-success status word
on the very first reply: the loop's early `return` skips the `GET_DATA_LAST`
request entirely, so zero "read last" requests are issued, not the exactly
one the claim requires. -/
theorem read_chained_no_last_on_failure :
    read_chained_data (fun _ => ([], 0x6A, 0x82)) 1 =
      some ([Req.next], [], 0x6A, 0x82) ∧
    ([Req.next] : List Req).count Req.last = 0 := by
  exact ⟨rfl, rfl⟩

theorem readChainedGo_last_count (trans : Nat → List Nat × Nat × Nat) :
    ∀ (fuel k : Nat) (reqs0 : List Req) (acc : List Nat)
      (reqs : List Req) (d : List Nat) (s1 s2 : Nat),
      reqs0.count Req.last = 0 →
      readChainedGo trans fuel k reqs0 acc = some (reqs, d, s1, s2) →
      (reqs.count Req.last = 1 ∧ reqs.getLast? = some Req.last) ∨
      (reqs.count Req.last = 0 ∧ success s1 s2 = false) := by
  intro fuel
  induction fuel with
  | zero => intro k reqs0 acc reqs d s1 s2 _ h; simp [readChainedGo] at h
  | succ fuel ih =>
    intro k reqs0 acc reqs d s1 s2 h0 h
    simp only [readChainedGo] at h
    by_cases hs : success (trans k).2.1 (trans k).2.2
    · rw [if_neg (by simp [hs])] at h
      by_cases hlen : (trans k).1.length < 256
      · rw [if_pos hlen] at h
        simp only [Option.some.injEq, Prod.mk.injEq] at h
        obtain ⟨hr, _, hs1, hs2⟩ := h
        subst hr
        left
        constructor
        · simp [List.count_append, h0, List.count_cons]
        · simp [List.getLast?_append]
      · rw [if_neg hlen] at h
        exact ih (k + 1) (reqs0 ++ [Req.next]) _ reqs d s1 s2
          (by simp [List.count_append, h0, List.count_singleton]) h
    · rw [if_pos (by simp [hs])] at h
      simp only [Option.some.injEq, Prod.mk.injEq] at h
      obtain ⟨hr, _, hs1, hs2⟩ := h
      subst hr hs1 hs2
      right
      constructor
      · simp [List.count_append, h0, List.count_singleton]
      · simpa using hs

/-- C3 as amended: at most one `GET_DATA_LAST` request is issued.  Exactly
one is issued — as the final request — when the loop ends because of a short
successful chunk; when the loop ends because of a non-success status word,
the function returns early and issues no `GET_DATA_LAST` request at all (in
that case the returned status word is the failing one). -/
theorem read_chained_single_last_request (trans : Nat → List Nat × Nat × Nat)
    (fuel : Nat) (reqs : List Req) (d : List Nat) (s1 s2 : Nat)
    (h : read_chained_data trans fuel = some (reqs, d, s1, s2)) :
    (reqs.count Req.last = 1 ∧ reqs.getLast? = some Req.last) ∨
    (reqs.count Req.last = 0 ∧ success s1 s2 = false) :=
  readChainedGo_last_count trans fuel 0 [] [] reqs d s1 s2 rfl h

theorem read_chained_single_last_request_witness :
    (([Req.next, Req.last] : List Req).count Req.last = 1 ∧
      ([Req.next, Req.last] : List Req).getLast? = some Req.last) ∨
    (([Req.next, Req.last] : List Req).count Req.last = 0 ∧ success 0x90 0 = false) :=
  read_chained_single_last_request (fun _ => ([1, 2], 0x90, 0)) 1
    [Req.next, Req.last] [1, 2] 0x90 0 rfl

theorem readChainedGo_none_on_full (fuel : Nat) :
    ∀ (k : Nat) (reqs : List Req) (acc : List Nat),
      readChainedGo (fun _ => (List.replicate 256 0, 0x90, 0)) fuel k reqs acc = none := by
  induction fuel with
  | zero => intro k reqs acc; rfl
  | succ fuel ih =>
    intro k reqs acc
    simp only [readChainedGo]
    rw [if_neg (by simp [success]),
      if_neg (by intro hc; simp only [List.length_replicate] at hc; omega)]
    exact ih (k + 1) _ _

/-- C8 counterexample.  Against a transport that always answers with a full
256-byte chunk and success status — a behaviour the claim explicitly
includes — the `while True` loop never meets either exit condition: no
amount of fuel makes it finish, i.e. the reassembler does not terminate. -/
theorem read_chained_diverges_on_full_chunks :
    ¬ readChainedTerminates (fun _ => (List.replicate 256 0, 0x90, 0)) := by
  rintro ⟨fuel, r, h⟩
  rw [read_chained_data, readChainedGo_none_on_full fuel 0 [] []] at h
  cases h

theorem readChainedGo_isSome_of_stop (trans : Nat → List Nat × Nat × Nat) :
    ∀ (fuel k : Nat) (reqs : List Req) (acc : List Nat),
      (∃ i, i < fuel ∧ (success (trans (k + i)).2.1 (trans (k + i)).2.2 = false ∨
        (trans (k + i)).1.length < 256)) →
      (readChainedGo trans fuel k reqs acc).isSome := by
  intro fuel
  induction fuel with
  | zero => rintro k reqs acc ⟨i, hi, _⟩; omega
  | succ fuel ih =>
    rintro k reqs acc ⟨i, hi, hstop⟩
    simp only [readChainedGo]
    by_cases hs : success (trans k).2.1 (trans k).2.2
    · rw [if_neg (by simp [hs])]
      by_cases hlen : (trans k).1.length < 256
      · rw [if_pos hlen]; rfl
      · rw [if_neg hlen]
        apply ih (k + 1)
        have hi0 : i ≠ 0 := by
          rintro rfl
          simp at hstop
          rcases hstop with h | h
          · simp [hs] at h
          · exact hlen h
        exact ⟨i - 1, by omega, by
          have : k + 1 + (i - 1) = k + i := by omega
          rw [this]; exact hstop⟩
    · rw [if_pos (by simp [hs])]; rfl

/-- C8 as amended: the chunk-accumulation loop terminates exactly when the
transport eventually produces a stopping reply; whenever some reply index
carries a non-success status word or a chunk shorter than 256 bytes, the
reassembler finishes after finitely many requests.  (For transports that
never do, see the counterexample: the loop runs forever.) -/
theorem read_chained_terminates_of_stop (trans : Nat → List Nat × Nat × Nat) (j : Nat)
    (hj : success (trans j).2.1 (trans j).2.2 = false ∨ (trans j).1.length < 256) :
    readChainedTerminates trans := by
  have h := readChainedGo_isSome_of_stop trans (j + 1) 0 [] []
    ⟨j, by omega, by simpa using hj⟩
  rcases Option.isSome_iff_exists.mp h with ⟨r, hr⟩
  exact ⟨j + 1, r, hr⟩

theorem read_chained_terminates_of_stop_witness :
    readChainedTerminates (fun _ => ([], 0x90, 0)) :=
  read_chained_terminates_of_stop (fun _ => ([], 0x90, 0)) 0 (by simp)

/-- C7: the record `E8 04 EA 02 83 00` parses into a `BERECHTIGUNG` node
containing a `BERECHTIGUNG_SEPARATE_DATEN` node that has no
`BERECHTIGUNG_PRODUKTSPEZIFISCH` leaf, so the heuristic's lookup path is
absent at its last step.  `get_value` returns `None`, the `[0]` subscript on
it raises `TypeError` — not the `AttributeError` the source catches — and the
exception escapes `pretty_print_block` instead of being treated as
"heuristic says no". -/
theorem pretty_print_block_raises_on_absent_leaf :
    pretty_print_block [0xE8, 0x04, 0xEA, 0x02, 0x83, 0x00] 0x90 0x00 = Except.error () ∧
    is_tlv_efs_heuristic (parse_internal false [0xE8, 0x04, 0xEA, 0x02, 0x83, 0x00]) =
      Except.error () := ⟨rfl, rfl⟩

/-- C9: for a 4-byte field interpreted as the 32-bit big-endian value `dt`,
`DateTimeCompact` decoding yields year = bits [31:25] plus 1990,
month = bits [24:21], day = bits [20:16], hour = bits [15:11],
minute = bits [10:5] and seconds = bits [4:0] times 2, and the field decoder
renders the components zero-padded as `YYYY-MM-DD HH:MM:SS`.  Both sides are
pure functions of the four bytes, so re-decoding the same bytes always
yields the identical string. -/
theorem dtc_decode_bits (b0 b1 b2 b3 dt : Nat)
    (h0 : b0 < 256) (h1 : b1 < 256) (h2 : b2 < 256) (h3 : b3 < 256)
    (hdt : dt = (b0 <<< 24) + (b1 <<< 16) + (b2 <<< 8) + b3) :
    decode_datetimecompact dt =
      (dt / 2 ^ 25 % 2 ^ 7 + 1990, dt / 2 ^ 21 % 2 ^ 4, dt / 2 ^ 16 % 2 ^ 5,
        dt / 2 ^ 11 % 2 ^ 5, dt / 2 ^ 5 % 2 ^ 6, dt % 2 ^ 5 * 2) ∧
    decodeField FieldType.dtc [b0, b1, b2, b3] =
      some (FieldVal.str (padDec 4 (dt / 2 ^ 25 % 2 ^ 7 + 1990) ++ "-" ++
        padDec 2 (dt / 2 ^ 21 % 2 ^ 4) ++ "-" ++ padDec 2 (dt / 2 ^ 16 % 2 ^ 5) ++ " " ++
        padDec 2 (dt / 2 ^ 11 % 2 ^ 5) ++ ":" ++ padDec 2 (dt / 2 ^ 5 % 2 ^ 6) ++ ":" ++
        padDec 2 (dt % 2 ^ 5 * 2)), []) := by
  have hlt : dt < 2 ^ 32 := by
    rw [hdt]
    simp only [Nat.shiftLeft_eq]
    norm_num
    omega
  have hand : ∀ (x k : Nat), x &&& (2 ^ k - 1) = x % 2 ^ k := fun x k =>
    Nat.and_pow_two_sub_one_eq_mod x k
  have hbits : decode_datetimecompact dt =
      (dt / 2 ^ 25 % 2 ^ 7 + 1990, dt / 2 ^ 21 % 2 ^ 4, dt / 2 ^ 16 % 2 ^ 5,
        dt / 2 ^ 11 % 2 ^ 5, dt / 2 ^ 5 % 2 ^ 6, dt % 2 ^ 5 * 2) := by
    rw [decode_datetimecompact]
    rw [show (0xF : Nat) = 2 ^ 4 - 1 from rfl, show (0x1F : Nat) = 2 ^ 5 - 1 from rfl,
      show (0x3F : Nat) = 2 ^ 6 - 1 from rfl]
    simp only [Nat.shiftRight_eq_div_pow, hand]
    have hyear : dt / 2 ^ 25 % 2 ^ 7 = dt / 2 ^ 25 :=
      Nat.mod_eq_of_lt (by norm_num at hlt ⊢; omega)
    rw [show (16 + 9 : Nat) = 25 from rfl, show (16 + 5 : Nat) = 21 from rfl, hyear]
  refine ⟨hbits, ?_⟩
  have hfield : decodeField FieldType.dtc [b0, b1, b2, b3] =
      some (FieldVal.str (formatDateTime (decode_datetimecompact dt)), []) := by
    rw [decodeField, ← hdt]
  rw [hfield, hbits]
  rfl

theorem dtc_decode_bits_witness :
    decode_datetimecompact 0x3C8C6100 =
      (0x3C8C6100 / 2 ^ 25 % 2 ^ 7 + 1990, 0x3C8C6100 / 2 ^ 21 % 2 ^ 4,
        0x3C8C6100 / 2 ^ 16 % 2 ^ 5, 0x3C8C6100 / 2 ^ 11 % 2 ^ 5,
        0x3C8C6100 / 2 ^ 5 % 2 ^ 6, 0x3C8C6100 % 2 ^ 5 * 2) ∧
    decodeField FieldType.dtc [0x3C, 0x8C, 0x61, 0x00] =
      some (FieldVal.str (padDec 4 (0x3C8C6100 / 2 ^ 25 % 2 ^ 7 + 1990) ++ "-" ++
        padDec 2 (0x3C8C6100 / 2 ^ 21 % 2 ^ 4) ++ "-" ++
        padDec 2 (0x3C8C6100 / 2 ^ 16 % 2 ^ 5) ++ " " ++
        padDec 2 (0x3C8C6100 / 2 ^ 11 % 2 ^ 5) ++ ":" ++
        padDec 2 (0x3C8C6100 / 2 ^ 5 % 2 ^ 6) ++ ":" ++
        padDec 2 (0x3C8C6100 % 2 ^ 5 * 2)), []) :=
  dtc_decode_bits 0x3C 0x8C 0x61 0x00 0x3C8C6100
    (by decide) (by decide) (by decide) (by decide) (by decide)

/-- Reference form of the `get_nth_child` semantics: take the `no`-th
(0-indexed, in encounter order) direct child whose tag matches, then return
its children if it passes the nested test, and "absent" otherwise — also
when fewer than `no + 1` tag matches exist. -/
def nthChildByTag (nodes : List TlvNode) (tag no : Nat) : Option (List TlvNode) :=
  match (nodes.filter (fun x => tagOf x == tag))[no]? with
  | none => none
  | some x => if is_nested_tlv x then some (childrenOf x) else none

theorem filter_keep (x : TlvNode) (rest : List TlvNode) (tag : Nat)
    (h : (tagOf x == tag) = true) :
    (x :: rest).filter (fun y => tagOf y == tag) =
      x :: rest.filter (fun y => tagOf y == tag) :=
  List.filter_cons_of_pos h

theorem filter_drop (x : TlvNode) (rest : List TlvNode) (tag : Nat)
    (h : ¬ (tagOf x == tag) = true) :
    (x :: rest).filter (fun y => tagOf y == tag) =
      rest.filter (fun y => tagOf y == tag) :=
  List.filter_cons_of_neg (by simpa using h)

theorem getNthChildGo_eq (tag no : Nat) :
    ∀ (nodes : List TlvNode) (c : Nat),
      getNthChildGo tag no nodes c =
        if c ≤ no then
          match (nodes.filter (fun x => tagOf x == tag))[no - c]? with
          | none => none
          | some x => if is_nested_tlv x then some (childrenOf x) else none
        else none := by
  intro nodes
  induction nodes with
  | nil =>
    intro c
    simp [getNthChildGo]
  | cons x rest ih =>
    intro c
    by_cases hx : (tagOf x == tag) = true
    · rw [show getNthChildGo tag no (x :: rest) c =
        if c == no && is_nested_tlv x then some (childrenOf x)
        else getNthChildGo tag no rest (c + 1) from by simp [getNthChildGo, hx]]
      by_cases hceq : c = no
      · subst hceq
        by_cases hn : is_nested_tlv x
        · rw [if_pos (by simp [hn]), if_pos (le_refl c), filter_keep x rest tag hx]
          simp [hn]
        · rw [if_neg (by simp [hn]), ih (c + 1), if_neg (by omega), if_pos (le_refl c),
            filter_keep x rest tag hx]
          simp [hn]
      · rw [if_neg (by simp [hceq]), ih (c + 1)]
        by_cases hc : c ≤ no
        · rw [if_pos (by omega), if_pos hc, filter_keep x rest tag hx]
          have hidx : no - c = (no - (c + 1)) + 1 := by omega
          rw [hidx, List.getElem?_cons_succ]
        · rw [if_neg (by omega), if_neg hc]
    · rw [show getNthChildGo tag no (x :: rest) c = getNthChildGo tag no rest c from by
        simp [getNthChildGo, hx]]
      rw [ih c, filter_drop x rest tag hx]

/-- C6: `get_nth_child(tag, no)` returns the `no`-th (0-indexed, in
encounter order) direct child whose tag matches, provided that child passes
the nested test, and returns "absent" (`None`, not an error) when fewer than
`no + 1` tag matches exist or the matching element is a leaf; in particular
index 5 on a tree with only two matching children is absent. -/
theorem get_nth_child_spec :
    (∀ (nodes : List TlvNode) (tag no : Nat),
      get_nth_child nodes tag no = nthChildByTag nodes tag no) ∧
    get_nth_child
      [TlvNode.node 0xE9 3 [TlvNode.leaf 0xC0 1 [5]],
        TlvNode.node 0xE9 3 [TlvNode.leaf 0xC0 1 [6]]] 0xE9 5 = none := by
  constructor
  · intro nodes tag no
    rw [get_nth_child, getNthChildGo_eq tag no nodes 0, if_pos (Nat.zero_le no)]
    rfl
  · rfl

/-- C2 counterexample.  The record `9B 01 01 91 03 01 02 03` parses into two
leaves: tag 0x9B whose schema requires 4 bytes but whose value has 1 byte,
followed by a well-formed tag 0x91 leaf.  The claim says the walk must not
raise past the decode dispatcher and must render the remaining leaves; in
the source, `VdvKaDecoder.decode` lets the `StopIteration` of the truncated
field escape (only `KeyError` is caught), so the walk aborts after printing
the truncated leaf's hex line and the 0x91 leaf is never rendered. -/
theorem pretty_print_truncated_aborts_walk :
    pretty_print true true (parse_internal false [0x9B, 1, 1, 0x91, 3, 1, 2, 3]) =
      (["9b (AUSGABE_APPLIKATION_DATEN): 01"], false) := by
  rw [show parse_internal false [0x9B, 1, 1, 0x91, 3, 1, 2, 3] =
    [TlvNode.leaf 0x9B 1 [1], TlvNode.leaf 0x91 3 [1, 2, 3]] from rfl]
  rw [pretty_print]
  simp only [pretty_print_internal, leafStep,
    show decode 0x9B [1] = Except.error () from rfl]
  decide

/-- C2 as amended: a leaf whose bytes are shorter than its schema's total
fixed length still gets its raw hex line reported and its sub-field decode
skipped, but the escaping exception aborts the walk at that leaf: the
returned completion flag is false and no later sibling is rendered (whereas
a leaf whose tag merely has no schema would let the walk continue). -/
theorem pretty_print_truncated_leaf (wn : Bool) (t len : Nat) (v : List Nat)
    (rest : List TlvNode) (ind : Nat) (herr : decode t v = Except.error ()) :
    pretty_print_internal wn true (TlvNode.leaf t len v :: rest) ind =
      ([leafLine wn ind t v], false) := by
  simp [pretty_print_internal, leafStep, herr]

theorem pretty_print_truncated_leaf_witness :
    decode 0x9B [1] = Except.error () ∧
    pretty_print_internal true true
      [TlvNode.leaf 0x9B 1 [1], TlvNode.leaf 0x91 3 [1, 2, 3]] 0 =
      ([leafLine true 0 0x9B [1]], false) :=
  ⟨rfl, pretty_print_truncated_leaf true 0x9B 1 [1] [TlvNode.leaf 0x91 3 [1, 2, 3]] 0 rfl⟩

theorem parseAux_no85 (n : Nat) :
    ∀ (data : List Nat), data.length ≤ n →
      hasTag85 (parse_internal false data) = false →
      parse_internal true data = parse_internal false data := by
  induction n with
  | zero =>
    intro data hlen _
    have : data = [] := by cases data <;> simp_all
    subst this; rfl
  | succ n ih =>
    intro data hlen h
    cases data with
    | nil => rfl
    | cons t rest =>
      rw [parse_internal_cons false t rest] at h
      rw [parse_internal_cons true t rest, parse_internal_cons false t rest]
      cases h1 : readLen rest with
      | none => simp only [h1]
      | some p =>
        obtain ⟨len, rest1⟩ := p
        cases h2 : takeExact len rest1 with
        | none => simp only [h1, h2]
        | some q =>
          obtain ⟨v, rest2⟩ := q
          have hr1 := readLen_eq_some h1
          obtain ⟨hv1, hv2⟩ := takeExact_eq_some h2
          simp only [List.length_cons] at hlen
          simp only [h1, h2] at h ⊢
          simp only [Bool.false_and, Bool.or_false, Bool.true_and] at h ⊢
          by_cases hb : ((t &&& 0x20 != 0) && (t != Tag.SCHLUESSELREGISTER_SEPARATE_DATEN)) = true
          · rw [if_pos hb] at h
            simp only [hasTag85, Bool.or_eq_false_iff] at h
            obtain ⟨⟨ht, hv85⟩, hr85⟩ := h
            rw [if_pos (by simp [hb]), if_pos hb]
            rw [ih v (by omega) hv85, ih rest2 (by omega) hr85]
          · rw [if_neg hb] at h
            simp only [hasTag85, Bool.or_eq_false_iff] at h
            obtain ⟨ht, hr85⟩ := h
            rw [if_neg ?hcond, if_neg hb]
            case hcond =>
              simp only [Tag.BERECHTIGUNG_PRODUKTSPEZIFISCH]
              simp [hb, show (t == 133) = false from by simpa using ht]
            rw [ih rest2 (by omega) hr85]

/-- C10: when the default-mode parse of a byte sequence contains no node
with tag 0x85 at any depth, parsing the same bytes with the TLV-EFS mode
flag produces an identical tree — the flag only changes the classification
of tag 0x85. -/
theorem parse_tlvefs_eq_of_no_tag85 (data : List Nat)
    (h : hasTag85 (parse_internal false data) = false) :
    parse_internal true data = parse_internal false data :=
  parseAux_no85 data.length data (le_refl _) h

theorem parse_tlvefs_eq_of_no_tag85_witness :
    hasTag85 (parse_internal false [0xE8, 4, 0xEA, 2, 0x83, 0]) = false ∧
    parse_internal true [0xE8, 4, 0xEA, 2, 0x83, 0] =
      parse_internal false [0xE8, 4, 0xEA, 2, 0x83, 0] := by
  have h : hasTag85 (parse_internal false [0xE8, 4, 0xEA, 2, 0x83, 0]) = false := by
    rw [show parse_internal false [0xE8, 4, 0xEA, 2, 0x83, 0] =
      [TlvNode.node 0xE8 4 [TlvNode.node 0xEA 2 [TlvNode.leaf 0x83 0 []]]] from rfl]
    simp [hasTag85]
  exact ⟨h, parse_tlvefs_eq_of_no_tag85 _ h⟩

theorem takeExact_append {n : Nat} {xs v r : List Nat}
    (h : takeExact n xs = some (v, r)) : xs = v ++ r := by
  induction n generalizing xs v r with
  | zero =>
    simp [takeExact] at h
    simp [h.1, h.2]
  | succ n ih =>
    cases xs with
    | nil => simp [takeExact] at h
    | cons x xs =>
      simp only [takeExact] at h
      cases h2 : takeExact n xs with
      | none => rw [h2] at h; simp at h
      | some p =>
        rw [h2] at h
        obtain ⟨v', r'⟩ := p
        simp at h
        obtain ⟨hv, hr⟩ := h
        subst hv hr
        simp [ih h2]

theorem readLongLen_suffix {n acc len : Nat} {xs r : List Nat}
    (h : readLongLen n acc xs = some (len, r)) : ∃ pre, xs = pre ++ r := by
  induction n generalizing acc xs with
  | zero =>
    simp [readLongLen] at h
    exact ⟨[], by simp [h.2]⟩
  | succ n ih =>
    cases xs with
    | nil => simp [readLongLen] at h
    | cons x xs =>
      simp only [readLongLen] at h
      obtain ⟨pre, hpre⟩ := ih h
      exact ⟨x :: pre, by simp [hpre]⟩

theorem readLen_suffix {len : Nat} {xs r : List Nat}
    (h : readLen xs = some (len, r)) : ∃ pre, xs = pre ++ r := by
  cases xs with
  | nil => simp [readLen] at h
  | cons l xs =>
    simp only [readLen] at h
    by_cases hbit : (l &&& 0x80 != 0) = true
    · rw [if_pos hbit] at h
      obtain ⟨pre, hpre⟩ := readLongLen_suffix h
      exact ⟨l :: pre, by simp [hpre]⟩
    · rw [if_neg hbit] at h
      simp at h
      exact ⟨[l], by simp [h.2]⟩

theorem readLongLen_lt (n : Nat) :
    ∀ (m acc len : Nat) (xs r : List Nat), (∀ b ∈ xs, b < 256) → acc < 2 ^ m →
      readLongLen n acc xs = some (len, r) → len < 2 ^ (m + 8 * n) := by
  induction n with
  | zero =>
    intro m acc len xs r _ hacc h
    simp [readLongLen] at h
    simpa [← h.1] using hacc
  | succ n ih =>
    intro m acc len xs r hb hacc h
    cases xs with
    | nil => simp [readLongLen] at h
    | cons x xs =>
      simp only [readLongLen] at h
      have hx : x < 256 := hb x (List.mem_cons_self x xs)
      have hacc' : (acc <<< 8) ||| x < 2 ^ (m + 8) := by
        apply Nat.or_lt_two_pow
        · rw [Nat.shiftLeft_eq, Nat.pow_add]
          exact Nat.mul_lt_mul_of_lt_of_le hacc (by norm_num) (by norm_num)
        · calc x < 256 := hx
            _ = 2 ^ 8 := by norm_num
            _ ≤ 2 ^ (m + 8) := Nat.pow_le_pow_right (by norm_num) (by omega)
      have := ih (m + 8) _ len xs r (fun b hb' => hb b (List.mem_cons_of_mem _ hb')) hacc' h
      rw [show m + 8 + 8 * n = m + 8 * (n + 1) from by ring] at this
      exact this

theorem lt_128_of_land {l : Nat} (h256 : l < 256) (h : l &&& 128 = 0) : l < 128 := by
  have h7 := Nat.and_two_pow l 7
  norm_num at h7
  rw [h] at h7
  have hbit : l.testBit 7 = false := by
    cases hb : l.testBit 7
    · rfl
    · rw [hb] at h7; norm_num at h7
  rw [Nat.testBit_to_div_mod] at hbit
  simp at hbit
  omega

/-- When the bytes are genuine bytes (< 256), the length field actually read
from the stream is at least as long as the minimal encoding of the length
value it denotes. -/
theorem readLen_minimal {len : Nat} {xs rest1 : List Nat}
    (hb : ∀ b ∈ xs, b < 256) (h : readLen xs = some (len, rest1)) :
    lenEncSize len + rest1.length ≤ xs.length := by
  cases xs with
  | nil => simp [readLen] at h
  | cons l xs =>
    simp only [readLen] at h
    by_cases hbit : (l &&& 0x80 != 0) = true
    · rw [if_pos hbit] at h
      have hlen : xs.length = (l &&& 0x7f) + rest1.length := readLongLen_eq_some h
      by_cases hsmall : len < 128
      · simp only [lenEncSize, if_pos hsmall, List.length_cons]
        omega
      · have hlt : len < 2 ^ (0 + 8 * (l &&& 0x7f)) :=
          readLongLen_lt (l &&& 0x7f) 0 0 len xs rest1
            (fun b hb' => hb b (List.mem_cons_of_mem _ hb')) (by norm_num) h
        rw [Nat.zero_add, Nat.pow_mul] at hlt
        have hlog : Nat.log 256 len < l &&& 0x7f := by
          apply Nat.log_lt_of_lt_pow (by omega)
          norm_num at hlt ⊢
          exact hlt
        simp only [lenEncSize, if_neg hsmall, List.length_cons]
        omega
    · rw [if_neg hbit] at h
      simp at h
      obtain ⟨hl, hxs⟩ := h
      have h256 : l < 256 := hb l (List.mem_cons_self l xs)
      have hsm : l < 128 := lt_128_of_land h256 (by simpa using hbit)
      subst hl
      simp only [lenEncSize, if_pos hsm, hxs, List.length_cons]
      omega

theorem sumEncSize_parse_le (n : Nat) :
    ∀ (efs : Bool) (data : List Nat), data.length ≤ n → (∀ b ∈ data, b < 256) →
      sumEncSize (parse_internal efs data) ≤ data.length := by
  induction n with
  | zero =>
    intro efs data hlen _
    have : data = [] := by cases data <;> simp_all
    subst this
    simp [sumEncSize, parse_internal, parseGo]
  | succ n ih =>
    intro efs data hlen hb
    cases data with
    | nil => simp [sumEncSize, parse_internal, parseGo]
    | cons t rest =>
      rw [parse_internal_cons]
      cases h1 : readLen rest with
      | none => simp [sumEncSize]
      | some p =>
        obtain ⟨len, rest1⟩ := p
        cases h2 : takeExact len rest1 with
        | none => simp [h2, sumEncSize]
        | some q =>
          obtain ⟨v, rest2⟩ := q
          simp only [h2]
          have hbrest : ∀ b ∈ rest, b < 256 := fun b hb' => hb b (List.mem_cons_of_mem _ hb')
          have hr1 := readLen_eq_some h1
          obtain ⟨hv1, hv2⟩ := takeExact_eq_some h2
          have hmin := readLen_minimal hbrest h1
          obtain ⟨pre, hpre⟩ := readLen_suffix h1
          have happ := takeExact_append h2
          have hbrest2 : ∀ b ∈ rest2, b < 256 := by
            intro b hb'
            apply hbrest
            rw [hpre, happ]
            simp [hb']
          have htail : sumEncSize (parse_internal efs rest2) ≤ rest2.length := by
            apply ih efs rest2 (by simp at hlen; omega) hbrest2
          simp only [List.length_cons] at hlen ⊢
          split
          · simp only [sumEncSize, List.map_cons, List.sum_cons, encSize, lenOf]
            simp only [sumEncSize] at htail
            omega
          · simp only [sumEncSize, List.map_cons, List.sum_cons, encSize, lenOf]
            simp only [sumEncSize] at htail
            omega

/-- C5 counterexample.  The bytes `E0 02 01 02` parse into a single
constructed node of declared length 2 whose nested byte range `01 02` ends
mid-structure (tag 0x01 declares 2 value bytes, none follow), so the nested
parse drops the incomplete child and yields zero children.  The node's
`length` field is 2 while the total encoded byte length of its (empty) child
sequence is 0, falsifying the claimed invariant. -/
theorem parse_length_invariant_fails :
    parse_internal false [0xE0, 2, 1, 2] = [TlvNode.node 0xE0 2 []] ∧
    ¬ lengthClaimInv (TlvNode.node 0xE0 2 []) := by
  refine ⟨rfl, ?_⟩
  simp [lengthClaimInv, sumEncSize]

theorem parse_nodes_lengthInv (n : Nat) :
    ∀ (efs : Bool) (data : List Nat), data.length ≤ n → (∀ b ∈ data, b < 256) →
      ∀ x ∈ subnodes (parse_internal efs data), lengthInv x := by
  induction n with
  | zero =>
    intro efs data hlen _ x hx
    have : data = [] := by cases data <;> simp_all
    subst this
    simp [subnodes, parse_internal, parseGo] at hx
  | succ n ih =>
    intro efs data hlen hb x hx
    cases data with
    | nil => simp [subnodes, parse_internal, parseGo] at hx
    | cons t rest =>
      rw [parse_internal_cons] at hx
      simp only [List.length_cons] at hlen
      cases h1 : readLen rest with
      | none => rw [h1] at hx; simp [subnodes] at hx
      | some p =>
        obtain ⟨len, rest1⟩ := p
        cases h2 : takeExact len rest1 with
        | none => rw [h1] at hx; simp only [h2] at hx; simp [subnodes] at hx
        | some q =>
          obtain ⟨v, rest2⟩ := q
          rw [h1] at hx
          simp only [h2] at hx
          have hbrest : ∀ b ∈ rest, b < 256 := fun b hb' => hb b (List.mem_cons_of_mem _ hb')
          have hr1 := readLen_eq_some h1
          obtain ⟨hv1, hv2⟩ := takeExact_eq_some h2
          obtain ⟨pre, hpre⟩ := readLen_suffix h1
          have happ := takeExact_append h2
          have hbv : ∀ b ∈ v, b < 256 := by
            intro b hb'
            apply hbrest
            rw [hpre, happ]
            simp [hb']
          have hbrest2 : ∀ b ∈ rest2, b < 256 := by
            intro b hb'
            apply hbrest
            rw [hpre, happ]
            simp [hb']
          split at hx
          · simp only [subnodes, List.mem_cons, List.mem_append] at hx
            rcases hx with hx | hx | hx
            · subst hx
              simp only [lengthInv]
              calc sumEncSize (parse_internal efs v)
                  ≤ v.length := sumEncSize_parse_le v.length efs v (le_refl _) hbv
                _ = len := hv1
            · exact ih efs v (by omega) hbv x hx
            · exact ih efs rest2 (by omega) hbrest2 x hx
          · simp only [subnodes, List.mem_cons] at hx
            rcases hx with hx | hx
            · subst hx
              simp [lengthInv, hv1]
            · exact ih efs rest2 (by omega) hbrest2 x hx

/-- C5 as amended: for byte input (all values < 256), every node of a parsed
tree satisfies: a raw leaf's `length` equals the byte length of its payload,
and a nested node's `length` is an upper bound on the total encoded byte
length of its child sequence — with equality whenever the nested byte range
parses completely, but strict inequality possible when it ends mid-structure
(see the counterexample). -/
theorem parse_length_invariant (efs : Bool) (data : List Nat)
    (hb : ∀ b ∈ data, b < 256) :
    ∀ x ∈ subnodes (parse_internal efs data), lengthInv x :=
  parse_nodes_lengthInv data.length efs data (le_refl _) hb

theorem parse_length_invariant_witness :
    (∀ b ∈ [0xE0, 2, 1, 2], b < 256) ∧
    (∀ x ∈ subnodes (parse_internal false [0xE0, 2, 1, 2]), lengthInv x) :=
  ⟨by decide, parse_length_invariant false [0xE0, 2, 1, 2] (by decide)⟩

end VdvChipcard
